import Mathlib

/-!
Shallow embedding of the ResearchMate RAG backend core, verified against its
natural-language specification.

Source files embedded here:
* `backend/app/utils/text_splitter.py` (`TextSplitter`)
* `backend/app/services/vector_store.py` (`VectorStoreService`)
* `backend/app/services/document_service.py` (`DocumentService`)
* `backend/app/services/rag_service.py` (`RAGService`)
* `backend/app/services/llm_service.py` (`LLMService.generate_response`)

Text is modelled as `List Char`; Python string indices are `Int` with Python's
negative-index slice semantics; distances/scores are `ℚ`; the external vector
backend, uuid generator, clock and LLM are explicit parameters.
-/

set_option maxHeartbeats 1000000

namespace ResearchMate

/-! ## Python string primitives -/

/-- Python whitespace test for the ASCII whitespace characters
(`str.strip` with no argument strips these). -/
def pyIsSpace (c : Char) : Bool :=
  c == ' ' || c == '\t' || c == '\n' || c == '\r' || c == '\x0b' || c == '\x0c'

/-- Python `str.strip()`: drop leading and trailing whitespace. -/
def pyStrip (s : List Char) : List Char :=
  ((s.dropWhile pyIsSpace).reverse.dropWhile pyIsSpace).reverse

/-- Normalise a Python slice index against a string of length `len`:
negative indices count from the end and clamp at `0`; non-negative
indices clamp at `len`. -/
def pyIdx (len : Nat) (i : Int) : Nat :=
  if i < 0 then ((len : Int) + i).toNat else min i.toNat len

/-- Python slice `s[i:j]` with full negative-index semantics. -/
def pySlice (s : List Char) (i j : Int) : List Char :=
  (s.take (pyIdx s.length j)).drop (pyIdx s.length i)

/-- Scan start positions `n-1, n-2, …, 0` for the rightmost occurrence of
pattern `p` in `s`; `-1` when there is none. -/
def rfindGo (s p : List Char) : Nat → Int
  | 0 => -1
  | n + 1 => if List.isPrefixOf p (s.drop n) then (n : Int) else rfindGo s p n

/-- Python `s.rfind(p)`: index of the rightmost occurrence of `p`, else `-1`. -/
def pyRfind (s p : List Char) : Int :=
  rfindGo s p (s.length + 1)

/-! ## `TextSplitter` (backend/app/utils/text_splitter.py) -/

structure TextSplitter where
  chunk_size : Int := 1000
  chunk_overlap : Int := 200

/-- The `sentence_endings` list of `TextSplitter._find_sentence_boundary`. -/
def sentenceEndings : List (List Char) :=
  [['.', ' '], ['!', ' '], ['?', ' '], ['.', '\n'], ['!', '\n'], ['?', '\n']]

/-- The `best_pos` fold of `_find_sentence_boundary`: for each ending, take
`pos = substring.rfind(ending)` and update `best_pos := pos + len(ending)`
whenever `pos > best_pos` (exactly as written in the source). -/
def bestEndingPos (sub : List Char) : Int :=
  sentenceEndings.foldl
    (fun bp e =>
      let pos := pyRfind sub e
      if pos > bp then pos + (e.length : Int) else bp)
    (-1)

/-- `TextSplitter._find_sentence_boundary(text, start, end)`. -/
def findSentenceBoundary (text : List Char) (s e : Int) : Int :=
  let ss := max s (e - 100)
  let sub := pySlice text ss e
  let bp := bestEndingPos sub
  if bp > 0 then ss + bp else -1

/-- `TextSplitter._find_word_boundary(text, start, end)`. -/
def findWordBoundary (text : List Char) (s e : Int) : Int :=
  let ss := max s (e - 50)
  let sub := pySlice text ss e
  let pos := pyRfind sub [' ']
  if pos > 0 then ss + pos + 1 else e

/-- The `end` position one iteration of `TextSplitter.split_text` uses:
`end = start + chunk_size`, adjusted to a sentence or word boundary when it
does not reach the end of the text (source lines 42-55). -/
def chunkEnd (sp : TextSplitter) (text : List Char) (s : Int) : Int :=
  let tl : Int := text.length
  let e0 := s + sp.chunk_size
  if e0 < tl then
    let se := findSentenceBoundary text s e0
    if se > s then se
    else
      let we := findWordBoundary text s e0
      if we > s then we else e0
  else e0

/-- One pass of the `while start < text_length` loop of
`TextSplitter.split_text`, with explicit fuel: `none` means the fuel ran out
(the Python loop has no other exit). -/
def splitLoop (sp : TextSplitter) (text : List Char) :
    Nat → Int → List (List Char) → Option (List (List Char))
  | 0, _, _ => none
  | fuel + 1, s, acc =>
    let tl : Int := text.length
    if s < tl then
      let e := chunkEnd sp text s
      let chunk := pyStrip (pySlice text s e)
      let acc2 := if chunk.isEmpty then acc else acc ++ [chunk]
      let s2 := if e < tl then e - sp.chunk_overlap else tl
      splitLoop sp text fuel s2 acc2
    else some acc

/-- `TextSplitter.split_text(text)`: `[]` on empty input, otherwise the
chunking loop starting at `start = 0`. -/
def splitText (sp : TextSplitter) (text : List Char) (fuel : Nat) :
    Option (List (List Char)) :=
  if text.isEmpty then some [] else splitLoop sp text fuel 0 []

/-! ## Lemmas about the Python string primitives -/

theorem dropWhile_head?_false (p : Char → Bool) (l : List Char) (x : Char)
    (h : (l.dropWhile p).head? = some x) : p x = false := by
  induction l with
  | nil => simp [List.dropWhile] at h
  | cons a t ih =>
    by_cases hp : p a
    · simp [List.dropWhile, hp] at h
      exact ih h
    · simp [List.dropWhile, hp] at h
      subst h
      simpa using hp

theorem dropWhile_eq_self_of_head? (p : Char → Bool) (l : List Char)
    (h : ∀ x, l.head? = some x → p x = false) : l.dropWhile p = l := by
  cases l with
  | nil => rfl
  | cons a t =>
    have := h a rfl
    simp [List.dropWhile, this]

theorem getLast?_dropWhile (p : Char → Bool) (l : List Char)
    (h : l.dropWhile p ≠ []) : (l.dropWhile p).getLast? = l.getLast? := by
  induction l with
  | nil => simp at h
  | cons a t ih =>
    by_cases hp : p a
    · have hd : (a :: t).dropWhile p = t.dropWhile p := by simp [List.dropWhile, hp]
      rw [hd] at h ⊢
      have ht : t ≠ [] := by
        intro he; subst he; simp [List.dropWhile] at h
      rw [ih h]
      cases t with
      | nil => exact absurd rfl ht
      | cons b t2 => rw [List.getLast?_cons_cons]
    · simp [List.dropWhile, hp]

theorem pyStrip_eq_self (l : List Char)
    (hh : ∀ x, l.head? = some x → pyIsSpace x = false)
    (hl : ∀ x, l.getLast? = some x → pyIsSpace x = false) : pyStrip l = l := by
  unfold pyStrip
  rw [dropWhile_eq_self_of_head? _ _ hh]
  rw [dropWhile_eq_self_of_head? _ _ (fun x hx => hl x (by rwa [List.head?_reverse] at hx))]
  exact List.reverse_reverse l

theorem pyStrip_head?_false (l : List Char) (x : Char)
    (h : (pyStrip l).head? = some x) : pyIsSpace x = false := by
  unfold pyStrip at h
  rw [List.head?_reverse] at h
  by_cases hn : (l.dropWhile pyIsSpace).reverse.dropWhile pyIsSpace = []
  · rw [hn] at h; simp at h
  · rw [getLast?_dropWhile _ _ hn, List.getLast?_reverse] at h
    exact dropWhile_head?_false pyIsSpace l x h

theorem pyStrip_getLast?_false (l : List Char) (x : Char)
    (h : (pyStrip l).getLast? = some x) : pyIsSpace x = false := by
  unfold pyStrip at h
  rw [List.getLast?_reverse] at h
  exact dropWhile_head?_false _ _ _ h

theorem pyStrip_idem (l : List Char) : pyStrip (pyStrip l) = pyStrip l :=
  pyStrip_eq_self _ (pyStrip_head?_false l) (pyStrip_getLast?_false l)

theorem pyStrip_length_le (l : List Char) : (pyStrip l).length ≤ l.length := by
  unfold pyStrip
  calc ((l.dropWhile pyIsSpace).reverse.dropWhile pyIsSpace).reverse.length
      = ((l.dropWhile pyIsSpace).reverse.dropWhile pyIsSpace).length := by
        rw [List.length_reverse]
    _ ≤ (l.dropWhile pyIsSpace).reverse.length := (List.dropWhile_sublist _).length_le
    _ = (l.dropWhile pyIsSpace).length := by rw [List.length_reverse]
    _ ≤ l.length := (List.dropWhile_sublist _).length_le

theorem pyStrip_eq_nil_of_all_space (l : List Char)
    (h : ∀ c ∈ l, pyIsSpace c) : pyStrip l = [] := by
  have hd : l.dropWhile pyIsSpace = [] := by
    rw [List.dropWhile_eq_nil_iff]; exact h
  unfold pyStrip
  rw [hd]
  rfl

theorem pySlice_sublist (s : List Char) (i j : Int) : (pySlice s i j).Sublist s :=
  ((s.take (pyIdx s.length j)).drop_sublist _).trans (s.take_sublist _)

theorem pyIdx_le_length (len : Nat) (i : Int) : pyIdx len i ≤ len := by
  unfold pyIdx
  split <;> omega

theorem pySlice_length_eq (s : List Char) (i j : Int) :
    (pySlice s i j).length = pyIdx s.length j - pyIdx s.length i := by
  unfold pySlice
  rw [List.length_drop, List.length_take]
  have := pyIdx_le_length s.length j
  omega

theorem pySlice_length_le (s : List Char) (i j sz : Int)
    (hsz : 0 ≤ sz) (hij : j ≤ i + sz) (hc : i < 0 ∨ 0 ≤ j) :
    ((pySlice s i j).length : Int) ≤ sz := by
  rw [pySlice_length_eq]
  unfold pyIdx
  split <;> split <;> omega

theorem pySlice_eq_nil_of_le (s : List Char) (i j : Int)
    (h : pyIdx s.length j ≤ pyIdx s.length i) : pySlice s i j = [] := by
  unfold pySlice
  rw [List.drop_eq_nil_iff, List.length_take]
  omega

theorem rfindGo_spec (s p : List Char) :
    ∀ n : Nat, n ≤ s.length + 1 →
      -1 ≤ rfindGo s p n ∧
      (0 ≤ rfindGo s p n → rfindGo s p n + (p.length : Int) ≤ (s.length : Int)) := by
  intro n
  induction n with
  | zero => intro _; simp [rfindGo]
  | succ n ih =>
    intro hn
    unfold rfindGo
    by_cases hp : List.isPrefixOf p (s.drop n)
    · simp only [hp, if_true]
      have hle : p.length ≤ (s.drop n).length :=
        (List.isPrefixOf_iff_prefix.mp hp).length_le
      rw [List.length_drop] at hle
      constructor
      · omega
      · intro _
        omega
    · simp only [hp, if_false]
      exact ih (by omega)

theorem pyRfind_spec (s p : List Char) :
    -1 ≤ pyRfind s p ∧
    (0 ≤ pyRfind s p → pyRfind s p + (p.length : Int) ≤ (s.length : Int)) :=
  rfindGo_spec s p (s.length + 1) le_rfl

theorem foldl_ending_le (sub : List Char) :
    ∀ (es : List (List Char)) (bp : Int), -1 ≤ bp → bp ≤ (sub.length : Int) →
      -1 ≤ es.foldl
          (fun bp e =>
            let pos := pyRfind sub e
            if pos > bp then pos + (e.length : Int) else bp) bp ∧
      es.foldl
          (fun bp e =>
            let pos := pyRfind sub e
            if pos > bp then pos + (e.length : Int) else bp) bp ≤
        (sub.length : Int) := by
  intro es
  induction es with
  | nil => intro bp h1 h2; exact ⟨h1, h2⟩
  | cons e es ih =>
    intro bp h1 h2
    simp only [List.foldl_cons]
    by_cases hgt : pyRfind sub e > bp
    · have hpos : 0 ≤ pyRfind sub e := by omega
      have hb := (pyRfind_spec sub e).2 hpos
      simp only [hgt, if_true]
      exact ih _ (by omega) (by omega)
    · simp only [hgt, if_false]
      exact ih _ h1 h2

theorem bestEndingPos_le (sub : List Char) :
    -1 ≤ bestEndingPos sub ∧ bestEndingPos sub ≤ (sub.length : Int) :=
  foldl_ending_le sub sentenceEndings (-1) le_rfl (by omega)

theorem bestEndingPos_nil : bestEndingPos [] = -1 := by decide

theorem findSentenceBoundary_spec (text : List Char) (s e : Int) (hse : s ≤ e) :
    findSentenceBoundary text s e = -1 ∨
    (max s (e - 100) < findSentenceBoundary text s e ∧ findSentenceBoundary text s e ≤ e) := by
  unfold findSentenceBoundary
  set ss := max s (e - 100) with hss
  have hsse : ss ≤ e := by omega
  have hcond : ss < 0 ∨ 0 ≤ e := by
    by_cases he : 0 ≤ e
    · exact Or.inr he
    · left; omega
  have hsub : ((pySlice text ss e).length : Int) ≤ e - ss :=
    pySlice_length_le text ss e (e - ss) (by omega) (by omega) hcond
  have hbp := bestEndingPos_le (pySlice text ss e)
  by_cases h : bestEndingPos (pySlice text ss e) > 0
  · simp only [h, if_true]
    right
    constructor
    · omega
    · omega
  · simp only [h, if_false]
    exact Or.inl trivial

theorem findWordBoundary_spec (text : List Char) (s e : Int) (hse : s ≤ e) :
    findWordBoundary text s e ≤ e ∧
    (max s (e - 50) < findWordBoundary text s e ∨ findWordBoundary text s e = e) := by
  unfold findWordBoundary
  set ss := max s (e - 50) with hss
  have hsse : ss ≤ e := by omega
  have hcond : ss < 0 ∨ 0 ≤ e := by
    by_cases he : 0 ≤ e
    · exact Or.inr he
    · left; omega
  have hsub : ((pySlice text ss e).length : Int) ≤ e - ss :=
    pySlice_length_le text ss e (e - ss) (by omega) (by omega) hcond
  have hrf := pyRfind_spec (pySlice text ss e) [' ']
  by_cases h : pyRfind (pySlice text ss e) [' '] > 0
  · have := hrf.2 (by omega)
    simp only [List.length_cons, List.length_nil] at this
    simp only [h, if_true]
    constructor
    · omega
    · left; omega
  · simp only [h, if_false]
    exact ⟨le_rfl, Or.inr trivial⟩

theorem findSentenceBoundary_of_sub_nil (text : List Char) (s e : Int)
    (h : pySlice text (max s (e - 100)) e = []) : findSentenceBoundary text s e = -1 := by
  simp only [findSentenceBoundary, h, bestEndingPos_nil]
  norm_num

theorem pySlice_eq_nil_of_neg (t : List Char) (i j : Int)
    (hi : i < 0) (hj : 0 ≤ j) (hlen : j - i ≤ (t.length : Int)) : pySlice t i j = [] := by
  apply pySlice_eq_nil_of_le
  unfold pyIdx
  split_ifs <;> omega

/-! ## Bounds on one iteration of the splitting loop -/

theorem chunkEnd_spec (sp : TextSplitter) (text : List Char) (s : Int)
    (h1 : 1 ≤ sp.chunk_size) :
    (chunkEnd sp text s = -1 ∧ s ≤ -2) ∨
    (s < chunkEnd sp text s ∧ chunkEnd sp text s ≤ s + sp.chunk_size) := by
  unfold chunkEnd
  by_cases hb : s + sp.chunk_size < (text.length : Int)
  · simp only [if_pos hb]
    have hsent := findSentenceBoundary_spec text s (s + sp.chunk_size) (by omega)
    by_cases hse : findSentenceBoundary text s (s + sp.chunk_size) > s
    · simp only [if_pos hse]
      rcases hsent with hm1 | ⟨_, hhi⟩
      · exact Or.inl ⟨hm1, by omega⟩
      · exact Or.inr ⟨hse, hhi⟩
    · simp only [if_neg hse]
      have hword := findWordBoundary_spec text s (s + sp.chunk_size) (by omega)
      by_cases hwe : findWordBoundary text s (s + sp.chunk_size) > s
      · simp only [if_pos hwe]
        exact Or.inr ⟨hwe, hword.1⟩
      · simp only [if_neg hwe]
        exact Or.inr ⟨by omega, le_rfl⟩
  · simp only [if_neg hb]
    exact Or.inr ⟨by omega, le_rfl⟩

theorem chunkEnd_of_reach (sp : TextSplitter) (text : List Char) (s : Int)
    (h : ¬ s + sp.chunk_size < (text.length : Int)) :
    chunkEnd sp text s = s + sp.chunk_size := by
  unfold chunkEnd
  simp only [if_neg h]

theorem chunkEnd_neg_sentinel (sp : TextSplitter) (text : List Char) (s : Int)
    (h1 : 1 ≤ sp.chunk_size) (hs2 : s ≤ -2) (hI1 : -sp.chunk_size ≤ s)
    (hlen : sp.chunk_size < (text.length : Int))
    (he0 : s + sp.chunk_size < (text.length : Int)) :
    chunkEnd sp text s = -1 ∨
    (1 ≤ chunkEnd sp text s ∧ chunkEnd sp text s ≤ s + sp.chunk_size) := by
  unfold chunkEnd
  simp only [if_pos he0]
  by_cases hss : max s (s + sp.chunk_size - 100) < 0
  · have hnil : pySlice text (max s (s + sp.chunk_size - 100)) (s + sp.chunk_size) = [] :=
      pySlice_eq_nil_of_neg _ _ _ hss (by omega) (by omega)
    have hsent := findSentenceBoundary_of_sub_nil text s (s + sp.chunk_size) hnil
    rw [hsent]
    simp only [if_pos (show (-1 : Int) > s by omega)]
    exact Or.inl trivial
  · rcases findSentenceBoundary_spec text s (s + sp.chunk_size) (by omega) with hm1 | ⟨hlo, hhi⟩
    · rw [hm1]
      simp only [if_pos (show (-1 : Int) > s by omega)]
      exact Or.inl trivial
    · have hgt : findSentenceBoundary text s (s + sp.chunk_size) > s := by omega
      simp only [if_pos hgt]
      exact Or.inr ⟨by omega, hhi⟩

theorem chunk_length_le (sp : TextSplitter) (text : List Char) (s : Int)
    (h1 : 1 ≤ sp.chunk_size) (hI1 : -sp.chunk_size ≤ s)
    (hI2 : s < 0 → sp.chunk_size < (text.length : Int)) :
    ((pyStrip (pySlice text s (chunkEnd sp text s))).length : Int) ≤ sp.chunk_size := by
  have hstrip : ((pyStrip (pySlice text s (chunkEnd sp text s))).length : Int) ≤
      ((pySlice text s (chunkEnd sp text s)).length : Int) := by
    exact_mod_cast pyStrip_length_le _
  rcases chunkEnd_spec sp text s h1 with ⟨hm1, hs2⟩ | ⟨hlo, hhi⟩
  · have hlen := hI2 (by omega)
    rw [hm1] at hstrip ⊢
    have hb : ((pySlice text s (-1)).length : Int) ≤ sp.chunk_size := by
      rw [pySlice_length_eq]
      unfold pyIdx
      split_ifs <;> omega
    omega
  · have hcond : s < 0 ∨ 0 ≤ chunkEnd sp text s := by
      by_cases h : 0 ≤ s
      · right; omega
      · left; omega
    have := pySlice_length_le text s (chunkEnd sp text s) sp.chunk_size (by omega) hhi hcond
    omega

theorem nextStart_inv (sp : TextSplitter) (text : List Char) (s : Int)
    (h1 : 1 ≤ sp.chunk_size) (hov : sp.chunk_overlap < sp.chunk_size)
    (hI1 : -sp.chunk_size ≤ s) (hI2 : s < 0 → sp.chunk_size < (text.length : Int)) :
    -sp.chunk_size ≤
      (if chunkEnd sp text s < (text.length : Int)
        then chunkEnd sp text s - sp.chunk_overlap else (text.length : Int)) ∧
    ((if chunkEnd sp text s < (text.length : Int)
        then chunkEnd sp text s - sp.chunk_overlap else (text.length : Int)) < 0 →
      sp.chunk_size < (text.length : Int)) := by
  by_cases hcase : chunkEnd sp text s < (text.length : Int)
  · simp only [if_pos hcase]
    have hlen : sp.chunk_size < (text.length : Int) := by
      by_cases hneg : s < 0
      · exact hI2 hneg
      · by_cases he0 : s + sp.chunk_size < (text.length : Int)
        · omega
        · have := chunkEnd_of_reach sp text s he0
          omega
    refine ⟨?_, fun _ => hlen⟩
    by_cases hsneg : s ≤ -2
    · by_cases he0 : s + sp.chunk_size < (text.length : Int)
      · rcases chunkEnd_neg_sentinel sp text s h1 hsneg hI1 hlen he0 with hm1 | ⟨h1e, h2e⟩
        · rw [hm1]; omega
        · omega
      · have := chunkEnd_of_reach sp text s he0
        omega
    · rcases chunkEnd_spec sp text s h1 with ⟨_, hs2⟩ | ⟨hlo, _⟩
      · omega
      · omega
  · simp only [if_neg hcase]
    refine ⟨by omega, fun h => absurd h (by omega)⟩

/-! ## Loop invariants of `split_text` -/

theorem splitLoop_length_le (sp : TextSplitter) (text : List Char)
    (h1 : 1 ≤ sp.chunk_size) (hov : sp.chunk_overlap < sp.chunk_size) :
    ∀ (fuel : Nat) (s : Int) (acc cs : List (List Char)),
      -sp.chunk_size ≤ s → (s < 0 → sp.chunk_size < (text.length : Int)) →
      (∀ c ∈ acc, (c.length : Int) ≤ sp.chunk_size) →
      splitLoop sp text fuel s acc = some cs →
      ∀ c ∈ cs, (c.length : Int) ≤ sp.chunk_size := by
  intro fuel
  induction fuel with
  | zero => intro s acc cs _ _ _ h; simp [splitLoop] at h
  | succ fuel ih =>
    intro s acc cs hI1 hI2 hacc hrun
    simp only [splitLoop] at hrun
    by_cases hs : s < (text.length : Int)
    · simp only [if_pos hs] at hrun
      have hchunk := chunk_length_le sp text s h1 hI1 hI2
      have hinv := nextStart_inv sp text s h1 hov hI1 hI2
      refine ih _ _ _ hinv.1 hinv.2 ?_ hrun
      intro c hc
      split at hc
      · exact hacc c hc
      · rcases List.mem_append.mp hc with h | h
        · exact hacc c h
        · rw [List.mem_singleton.mp h]
          exact hchunk
    · simp only [if_neg hs] at hrun
      obtain rfl : acc = cs := Option.some.inj hrun
      exact hacc

theorem splitLoop_stripped (sp : TextSplitter) (text : List Char) :
    ∀ (fuel : Nat) (s : Int) (acc cs : List (List Char)),
      (∀ c ∈ acc, c ≠ [] ∧ pyStrip c = c) →
      splitLoop sp text fuel s acc = some cs →
      ∀ c ∈ cs, c ≠ [] ∧ pyStrip c = c := by
  intro fuel
  induction fuel with
  | zero => intro s acc cs _ h; simp [splitLoop] at h
  | succ fuel ih =>
    intro s acc cs hacc hrun
    simp only [splitLoop] at hrun
    by_cases hs : s < (text.length : Int)
    · simp only [if_pos hs] at hrun
      refine ih _ _ _ ?_ hrun
      intro c hc
      split at hc
      · exact hacc c hc
      · rcases List.mem_append.mp hc with h | h
        · exact hacc c h
        · rw [List.mem_singleton.mp h]
          refine ⟨?_, pyStrip_idem _⟩
          intro hnil
          rename_i hemp
          exact hemp (by rw [hnil]; rfl)
    · simp only [if_neg hs] at hrun
      obtain rfl : acc = cs := Option.some.inj hrun
      exact hacc

theorem splitLoop_allspace (sp : TextSplitter) (text : List Char)
    (hsp : ∀ c ∈ text, pyIsSpace c) :
    ∀ (fuel : Nat) (s : Int) (acc cs : List (List Char)),
      splitLoop sp text fuel s acc = some cs → cs = acc := by
  intro fuel
  induction fuel with
  | zero => intro s acc cs h; simp [splitLoop] at h
  | succ fuel ih =>
    intro s acc cs hrun
    simp only [splitLoop] at hrun
    by_cases hs : s < (text.length : Int)
    · simp only [if_pos hs] at hrun
      have hnil : pyStrip (pySlice text s (chunkEnd sp text s)) = [] :=
        pyStrip_eq_nil_of_all_space _
          (fun c hc => hsp c ((pySlice_sublist text s (chunkEnd sp text s)).mem hc))
      rw [hnil] at hrun
      simp only [List.isEmpty_nil, if_pos] at hrun
      exact ih _ _ _ hrun
    · simp only [if_neg hs] at hrun
      exact (Option.some.inj hrun).symm

theorem pySlice_full (t : List Char) (sz : Int) (h : (t.length : Int) ≤ sz) :
    pySlice t 0 sz = t := by
  unfold pySlice pyIdx
  have h1 : ¬ sz < 0 := by omega
  have h2 : ¬ (0 : Int) < 0 := by omega
  simp only [h1, h2, if_false]
  have h3 : min (Int.toNat 0) t.length = 0 := by omega
  have h4 : min sz.toNat t.length = t.length := by omega
  rw [h3, h4, List.take_length, List.drop_zero]

theorem length_pos_of_ne_nil (t : List Char) (h : t ≠ []) : (0 : Int) < t.length := by
  have : t.length ≠ 0 := by simpa using h
  omega

theorem isEmpty_false_of_ne_nil (t : List Char) (h : t ≠ []) : t.isEmpty = false := by
  cases t with
  | nil => exact absurd rfl h
  | cons a l => rfl

/-! ## Metadata (Python dicts) and the vector store
(backend/app/services/vector_store.py) -/

/-- A Python metadata value: the code stores strings and ints. -/
inductive MVal where
  | s (v : String)
  | i (v : Int)
deriving DecidableEq

/-- Metadata dict, by lookup semantics: an association list in which an
earlier binding shadows a later one, so `{**base, k: v}` is modelled by
putting the new bindings in front of `base`. -/
abbrev Meta : Type := List (String × MVal)

/-- Python `dict.get(key)`. -/
def mget (m : Meta) (k : String) : Option MVal :=
  (List.find? (fun p => p.1 == k) m).map (fun p => p.2)

/-- Python `dict.get(key, default)`. -/
def mgetD (m : Meta) (k : String) (d : MVal) : MVal :=
  (mget m k).getD d

/-- Python `str()` of a metadata value, as f-string interpolation applies. -/
def mvalStr : MVal → String
  | .s v => v
  | .i v => toString v

/-- One stored vector in the Chroma collection: id, document text and
metadata. The embedding vector itself is produced by the external embedding
capability and does not affect any behaviour modelled here. -/
structure Entry where
  id : String
  content : String
  metadata : Meta
deriving DecidableEq

/-- The per-chunk metadata `add_documents` builds (vector_store.py:148-154):
`{**metadata, "chunk_id": ..., "chunk_index": i, "total_chunks": ...,
"timestamp": ...}`; new bindings are listed first (see `Meta`). -/
def chunkMetadata (base : Meta) (cid : String) (i total : Nat) (ts : String) : Meta :=
  [("chunk_id", .s cid), ("chunk_index", .i i), ("total_chunks", .i total),
    ("timestamp", .s ts)] ++ base

/-- The return value of `add_documents`. -/
structure AddResult where
  status : String
  documents_added : Nat
deriving DecidableEq

/-- `VectorStoreService.add_documents(chunks, metadata)` (vector_store.py:111-178):
empty input is skipped with `documents_added = 0`; otherwise each chunk gets a
fresh uuid from the stream `ids`, enriched metadata, and is stored; returns
`documents_added = len(chunks)`. The generated chunk ids are NOT returned. -/
def addDocuments (chunks : List String) (base : Meta) (ids : Nat → String)
    (ts : String) (store : List Entry) : List Entry × AddResult :=
  if chunks = [] then (store, ⟨"skipped", 0⟩)
  else
    let entries := chunks.enum.map fun p =>
      Entry.mk (ids p.1) p.2 (chunkMetadata base (ids p.1) p.1 chunks.length ts)
    (store ++ entries, ⟨"success", chunks.length⟩)

/-- One formatted result of `similarity_search` (vector_store.py:227-232). -/
structure SearchResult where
  content : String
  metadata : Meta
  score : ℚ
  id : MVal
deriving DecidableEq

/-- The score conversion of `similarity_search` (vector_store.py:225):
`similarity_score = 1 - score if score < 1 else 0.0`, where `score` is the
distance the backend reports. -/
def convertScore (distance : ℚ) : ℚ :=
  if distance < 1 then 1 - distance else 0

/-- `VectorStoreService.similarity_search` (vector_store.py:215-239), given
the (document, distance) pairs the external backend call
`vectorstore.similarity_search_with_score(query, k)` returned: each pair is
converted into a result dict with the converted score and
`metadata.get("chunk_id", "unknown")` as id. -/
def similaritySearch (results : List ((String × Meta) × ℚ)) : List SearchResult :=
  results.map fun r =>
    SearchResult.mk r.1.1 r.1.2 (convertScore r.2) (mgetD r.1.2 "chunk_id" (.s "unknown"))

/-- `VectorStoreService.delete_documents(ids)`: `collection.delete(ids=ids)`
removes exactly the entries whose id occurs in `ids`. `DocumentService`
passes the values stored under `"chunk_ids"`, which are `MVal` values; a
stored entry (whose id is a uuid string) is removed only when `MVal.s e.id`
occurs in the list. -/
def vsDeleteDocuments (store : List Entry) (ids : List MVal) : List Entry :=
  store.filter (fun e => !(ids.contains (MVal.s e.id)))

/-! ## `DocumentService` (backend/app/services/document_service.py) -/

/-- The document metadata record `DocumentService.process_document` stores
(document_service.py:327-338); fields not used by any claim (file path,
upload date, sizes, timings) are omitted. -/
structure DocMeta where
  filename : String
  chunk_count : Nat
  chunk_ids : List MVal
deriving DecidableEq

/-- The state `DocumentService` acts on: the shared vector store plus the
`documents_metadata` mapping. -/
structure DocState where
  store : List Entry
  docs : List (String × DocMeta)
deriving DecidableEq

/-- Return value of `DocumentService.process_document`. -/
structure ProcessResult where
  document_id : String
  chunks_created : Nat
deriving DecidableEq

/-- `DocumentService.process_document` (document_service.py:274-349), after
the external extraction/chunking produced `chunks`: adds the chunks to the
vector store with base metadata `{"filename": ..., "document_id": ...}` and
records document metadata whose `chunk_ids` is
`[result.get("documents_added", len(chunks))]` (line 324) — the COUNT of
added documents, not the generated uuid chunk ids. -/
def processDocument (filename : String) (chunks : List String) (docId : String)
    (ids : Nat → String) (ts : String) (st : DocState) : DocState × ProcessResult :=
  if chunks = [] then (st, ⟨docId, 0⟩)
  else
    let r := addDocuments chunks [("filename", .s filename), ("document_id", .s docId)]
      ids ts st.store
    let chunkIds : List MVal := [.i r.2.documents_added]
    (⟨r.1, st.docs ++ [(docId, ⟨filename, chunks.length, chunkIds⟩)]⟩,
      ⟨docId, chunks.length⟩)

/-- `DocumentService.delete_document` (document_service.py:371-402): `none`
models the ValueError for an unknown id; otherwise delete the stored
`chunk_ids` from the vector store (when non-empty) and drop the document
record. -/
def deleteDocument (docId : String) (st : DocState) : Option DocState :=
  match List.find? (fun p => p.1 == docId) st.docs with
  | none => none
  | some m =>
    let store2 := if m.2.chunk_ids ≠ [] then vsDeleteDocuments st.store m.2.chunk_ids
      else st.store
    some ⟨store2, st.docs.filter (fun p => !(p.1 == docId))⟩

/-! ## `RAGService` and `LLMService.generate_response`
(backend/app/services/rag_service.py, llm_service.py) -/

/-- `ConversationMessage` (models/schemas.py:125-137); the timestamp default
plays no role in any claim and is omitted. -/
structure ConversationMessage where
  role : String
  content : String
deriving DecidableEq

/-- `ConversationHistory` (models/schemas.py:141-146); timestamps are ticks
of the explicit clock parameter. -/
structure ConversationHistory where
  conversation_id : String
  messages : List ConversationMessage
  created_at : Nat
  updated_at : Nat
deriving DecidableEq

/-- The in-memory `self.conversations` dict of `RAGService`. -/
abbrev Conversations : Type := List (String × ConversationHistory)

/-- Python `str.strip()` on a `String`. -/
def stripString (s : String) : String :=
  String.mk (pyStrip s.data)

/-- `RAGService._build_context(documents)` (rag_service.py:96-108): numbers
documents from 1, headed by `metadata.get("source", "Unknown")`, joined with
newlines. -/
def buildContext (documents : List SearchResult) : String :=
  String.intercalate "\n" (documents.enum.map fun p =>
    "[Document " ++ toString (p.1 + 1) ++ " - " ++
      mvalStr (mgetD p.2.metadata "source" (.s "Unknown")) ++ "]\n" ++
      p.2.content ++ "\n")

/-- `SourceDocument` (models/schemas.py:109-115). -/
structure SourceDocument where
  filename : MVal
  page : Option MVal
  chunk_id : MVal
  relevance_score : ℚ
  content_preview : String
deriving DecidableEq

/-- `RAGService._format_sources(documents)` (rag_service.py:110-125):
`filename = metadata.get("source", "Unknown")`, `page = metadata.get("page")`,
`chunk_id = metadata.get("chunk_id", str(uuid.uuid4()))` (fresh uuid from the
stream when absent), preview capped at 200 characters plus "...". -/
def formatSources (freshIds : Nat → String) (documents : List SearchResult) :
    List SourceDocument :=
  documents.enum.map fun p =>
    SourceDocument.mk
      (mgetD p.2.metadata "source" (.s "Unknown"))
      (mget p.2.metadata "page")
      (mgetD p.2.metadata "chunk_id" (.s (freshIds p.1)))
      p.2.score
      (if p.2.content.length > 200 then p.2.content.take 200 ++ "..." else p.2.content)

/-- `RAGService._format_conversation_history(conversation)`
(rag_service.py:127-134): the last 5 messages, rendered `"User: …"` for role
"user" and `"Assistant: …"` otherwise, joined with newlines. -/
def formatConversationHistory (conv : ConversationHistory) : String :=
  String.intercalate "\n" ((conv.messages.drop (conv.messages.length - 5)).map
    fun msg => (if msg.role = "user" then "User" else "Assistant") ++ ": " ++ msg.content)

/-- `RAGService._update_conversation(conversation_id, question, answer)`
(rag_service.py:136-153): create the conversation on first use, then append
the user and assistant messages and refresh `updated_at`. -/
def updateConversation (convs : Conversations) (cid question answer : String)
    (now : Nat) : Conversations :=
  let convs2 := if (List.find? (fun p => p.1 == cid) convs).isSome then convs
    else convs ++ [(cid, ⟨cid, [], now, now⟩)]
  convs2.map fun p =>
    if p.1 == cid then
      (p.1, ⟨p.2.conversation_id,
        p.2.messages ++ [⟨"user", question⟩, ⟨"assistant", answer⟩],
        p.2.created_at, now⟩)
    else p

/-- `LLMService.generate_response(query, vector_store)`
(llm_service.py:133-207): builds a LangChain RetrievalQA "stuff" chain over
`vector_store.vectorstore.as_retriever(search_kwargs=(k := settings.TOP_K_RETRIEVAL))`
and invokes it on the query alone. The chain retrieves its own `topK`
documents via the backend, joins their page contents with blank lines into
the prompt template's context slot, and calls the model; the answer is the
stripped model output. `llm context question` models the external model call
on the filled template. -/
structure GenOutcome where
  answer : String
  contextUsed : String
  docsUsed : List ((String × Meta) × ℚ)
deriving DecidableEq

def generateResponse (llm : String → String → String)
    (backend : String → Nat → List ((String × Meta) × ℚ)) (topK : Nat)
    (query : String) : GenOutcome :=
  let docs := backend query topK
  let context := String.intercalate "\n\n" (docs.map fun d => d.1.1)
  ⟨stripString (llm context query), context, docs⟩

/-- The canned answer of `RAGService.query` (rag_service.py:57). -/
def cannedNoInfoAnswer : String :=
  "I couldn't find any relevant information in the documents to answer your question."

/-- The response dict `RAGService.query` returns. -/
structure RagResponse where
  answer : String
  sources : List SourceDocument
  conversation_id : String
deriving DecidableEq

/-- Everything observable about one `RAGService.query` call:
the returned response, the updated conversation store, whether the
generation capability was invoked, the context string the generation chain
actually passed to the model and the documents it retrieved for that, and
the values of the local variables `context` (from `_build_context`) and
`conversation_context` that `query` computes at rag_service.py:63-70 and
then never passes anywhere. -/
structure QueryOutcome where
  response : RagResponse
  conversations : Conversations
  generationInvoked : Bool
  contextPassedToGeneration : Option String
  docsUsedForGeneration : List ((String × Meta) × ℚ)
  assembledContext : String
  conversationContext : String
deriving DecidableEq

/-- `RAGService.query(question, conversation_id, max_results, temperature)`
(rag_service.py:24-94). `uuid` is the fresh conversation id used when none
is supplied (`if not conversation_id` also catches the empty string),
`backend q k` the external similarity search, `llm` the external model,
`freshIds` the uuid stream `_format_sources` draws defaults from, `now` the
clock. `temperature` is accepted and never used, as in the source. -/
def ragQuery (llm : String → String → String)
    (backend : String → Nat → List ((String × Meta) × ℚ)) (topK : Nat)
    (freshIds : Nat → String) (uuid : String) (now : Nat)
    (question : String) (conversationId : Option String) (maxResults : Nat)
    (temperature : ℚ) (convs : Conversations) : QueryOutcome :=
  let _ := temperature
  let cid := match conversationId with
    | none => uuid
    | some c => if c = "" then uuid else c
  let retrieved := similaritySearch (backend question maxResults)
  if retrieved = [] then
    ⟨⟨cannedNoInfoAnswer, [], cid⟩, convs, false, none, [], "", ""⟩
  else
    let context := buildContext retrieved
    let conversationContext := match List.find? (fun p => p.1 == cid) convs with
      | some p => formatConversationHistory p.2
      | none => ""
    let gen := generateResponse llm backend topK question
    let answer := gen.answer
    let sources := formatSources freshIds retrieved
    let convs2 := updateConversation convs cid question answer now
    ⟨⟨answer, sources, cid⟩, convs2, true, some gen.contextUsed, gen.docsUsed,
      context, conversationContext⟩

end ResearchMate

open ResearchMate

theorem convertScore_antitone {d1 d2 : ℚ} (h : d1 ≤ d2) :
    convertScore d2 ≤ convertScore d1 := by
  unfold convertScore
  split_ifs <;> linarith

/-- C1: ingesting a one-chunk document and then deleting it leaves the chunk
in the index, because `process_document` stores `chunk_ids = [documents_added]`
(the count, document_service.py:324) instead of the generated uuid ids, so
`delete_document` deletes nothing from the vector store: the surviving entry
still has id "u0" and a similarity search over the surviving entries returns
a passage whose chunk_id is "u0". This refutes the delete-cascade claim. -/
theorem C1_delete_cascade_bug :
    (deleteDocument "d1" (processDocument "a.pdf" ["alpha"] "d1"
        (fun i => "u" ++ toString i) "t0" ⟨[], []⟩).1).map (fun st =>
      (st.store.map fun e => e.id,
        (similaritySearch (st.store.map fun e => ((e.content, e.metadata), (1:ℚ)/2))).map
          fun r => r.id))
      = some (["u0"], [.s "u0"]) := by
  decide

/-- C3: the generation step is NOT invoked with the assembled context.
At a state with two indexed chunks, `max_results = 1` and TOP_K_RETRIEVAL = 5,
`query` assembles `[Document 1 - Unknown]\nalpha\n` from the single retrieved
passage and the non-empty conversation history, but `generate_response`
re-retrieves on its own (both chunks) and passes `alpha\n\nbeta` — without the
history — to the model; the `context` and `conversation_context` variables of
`query` (rag_service.py:63-70) are computed and discarded. -/
theorem C3_generation_context_bug :
    let backend : String → Nat → List ((String × Meta) × ℚ) := fun _ k =>
      ([(("alpha", [("chunk_id", MVal.s "uA")]), (1:ℚ)/10),
        (("beta", [("chunk_id", MVal.s "uB")]), (2:ℚ)/10)]).take k
    let o := ragQuery (fun c q => c ++ "|" ++ q) backend 5 (fun i => "f" ++ toString i)
      "u-new" 7 "q?" (some "c1") 1 ((7:ℚ)/10)
      [("c1", ⟨"c1", [⟨"user", "hi"⟩, ⟨"assistant", "yo"⟩], 1, 2⟩)]
    o.generationInvoked = true ∧
    o.contextPassedToGeneration = some "alpha\n\nbeta" ∧
    o.assembledContext = "[Document 1 - Unknown]\nalpha\n" ∧
    o.conversationContext = "User: hi\nAssistant: yo" ∧
    o.contextPassedToGeneration ≠ some o.assembledContext ∧
    o.docsUsedForGeneration.length = 2 ∧
    (similaritySearch (backend "q?" 1)).length = 1 := by
  decide

/-- C4 counterexample: on zero retrieved passages `query` returns the canned
answer with empty sources and the conversation id and does not invoke
generation — but it returns at rag_service.py:55-60 BEFORE
`_update_conversation`, so no user/assistant turn is recorded: the
conversation store stays empty, refuting the claim's final conjunct. -/
theorem C4_counterexample :
    let o := ragQuery (fun c q => c ++ "|" ++ q) (fun _ _ => []) 5
      (fun i => "f" ++ toString i) "u-new" 7 "q?" (some "c1") 5 ((7:ℚ)/10) []
    o.response.answer = cannedNoInfoAnswer ∧ o.response.sources = [] ∧
    o.response.conversation_id = "c1" ∧ o.generationInvoked = false ∧
    o.conversations = [] ∧
    List.find? (fun p => p.1 == "c1") o.conversations = none := by
  decide

/-- C4 amended: on zero retrieved passages `query` returns the canned
no-information answer with empty sources and the conversation id, does not
invoke the generation capability, and leaves the conversation store
unchanged (no turn is appended). -/
theorem C4_no_context_amended (llm : String → String → String)
    (backend : String → Nat → List ((String × Meta) × ℚ)) (topK : Nat)
    (freshIds : Nat → String) (uuid : String) (now : Nat) (question : String)
    (conversationId : Option String) (maxResults : Nat) (temperature : ℚ)
    (convs : Conversations)
    (hempty : backend question maxResults = []) :
    (ragQuery llm backend topK freshIds uuid now question conversationId
        maxResults temperature convs).response.answer = cannedNoInfoAnswer ∧
    (ragQuery llm backend topK freshIds uuid now question conversationId
        maxResults temperature convs).response.sources = [] ∧
    (ragQuery llm backend topK freshIds uuid now question conversationId
        maxResults temperature convs).generationInvoked = false ∧
    (ragQuery llm backend topK freshIds uuid now question conversationId
        maxResults temperature convs).contextPassedToGeneration = none ∧
    (ragQuery llm backend topK freshIds uuid now question conversationId
        maxResults temperature convs).conversations = convs ∧
    (∀ c, conversationId = some c → c ≠ "" →
      (ragQuery llm backend topK freshIds uuid now question conversationId
        maxResults temperature convs).response.conversation_id = c) ∧
    (conversationId = none →
      (ragQuery llm backend topK freshIds uuid now question conversationId
        maxResults temperature convs).response.conversation_id = uuid) := by
  unfold ragQuery
  rw [hempty]
  have hnil : similaritySearch ([] : List ((String × Meta) × ℚ)) = [] := rfl
  rw [hnil]
  simp only [if_pos rfl]
  refine ⟨rfl, rfl, rfl, rfl, rfl, ?_, ?_⟩
  · intro c hc hne
    subst hc
    simp [hne]
  · intro hc
    subst hc
    rfl

/-- Witness for the amended C4 on an empty backend. -/
theorem C4_no_context_amended_witness :
    ((fun (_ : String) (_ : Nat) => ([] : List ((String × Meta) × ℚ))) "q?" 5 = []) ∧
    ((ragQuery (fun c q => c ++ "|" ++ q) (fun _ _ => []) 5 (fun i => "f" ++ toString i)
        "u-new" 7 "q?" (some "c1") 5 ((7:ℚ)/10) []).response.answer = cannedNoInfoAnswer ∧
      (ragQuery (fun c q => c ++ "|" ++ q) (fun _ _ => []) 5 (fun i => "f" ++ toString i)
        "u-new" 7 "q?" (some "c1") 5 ((7:ℚ)/10) []).conversations = []) :=
  ⟨rfl,
    ⟨(C4_no_context_amended (fun c q => c ++ "|" ++ q) (fun _ _ => []) 5
      (fun i => "f" ++ toString i) "u-new" 7 "q?" (some "c1") 5 ((7:ℚ)/10) [] rfl).1,
     (C4_no_context_amended (fun c q => c ++ "|" ++ q) (fun _ _ => []) 5
      (fun i => "f" ++ toString i) "u-new" 7 "q?" (some "c1") 5 ((7:ℚ)/10) [] rfl).2.2.2.2.1⟩⟩

/-- C5: `similarity_search` does not clamp converted scores above 1: for a
reported distance of −1/2 the code takes the `distance < 1` branch and
returns 3/2, outside [0,1] (vector_store.py:225 clamps only distances ≥ 1 to
0.0), contradicting the claim, the docstring "Similarity score (0-1)" and the
`SourceDocument` bound `le=1.0`. -/
theorem C5_score_not_clamped :
    similaritySearch [(("doc", [("chunk_id", MVal.s "u0")]), -(1:ℚ)/2)]
      = [⟨"doc", [("chunk_id", MVal.s "u0")], (3:ℚ)/2, .s "u0"⟩] ∧
    ¬ ((3:ℚ)/2 ≤ 1) := by
  constructor
  · show [SearchResult.mk "doc" [("chunk_id", MVal.s "u0")] (convertScore (-(1:ℚ)/2))
        (mgetD [("chunk_id", MVal.s "u0")] "chunk_id" (.s "unknown"))] = _
    have h1 : convertScore (-(1:ℚ)/2) = (3:ℚ)/2 := by
      unfold convertScore
      rw [if_pos (by norm_num)]
      norm_num
    rw [h1]
    rfl
  · norm_num

/-- C9: given the backend returns at most k hits in non-decreasing distance
order, `similarity_search` returns at most k results with non-increasing
similarity scores, and returns the empty list when the backend reports no
hits (as on an index with zero vectors). -/
theorem C9_retrieval_monotonicity (results : List ((String × Meta) × ℚ)) (k : Nat)
    (hsorted : results.Chain' fun a b => a.2 ≤ b.2) (hlen : results.length ≤ k) :
    (similaritySearch results).Chain' (fun a b => b.score ≤ a.score) ∧
    (similaritySearch results).length ≤ k ∧
    similaritySearch ([] : List ((String × Meta) × ℚ)) = [] := by
  refine ⟨?_, ?_, rfl⟩
  · unfold similaritySearch
    rw [List.chain'_map]
    exact hsorted.imp fun a b hab => convertScore_antitone hab
  · unfold similaritySearch
    rw [List.length_map]
    exact hlen

/-- Witness for C9 on a two-hit backend answer with k = 3. -/
theorem C9_retrieval_monotonicity_witness :
    ([((("a" : String), ([] : Meta)), (1:ℚ)/4), (("b", []), (1:ℚ)/2)].Chain'
        fun a b => a.2 ≤ b.2) ∧
    (similaritySearch [((("a" : String), ([] : Meta)), (1:ℚ)/4), (("b", []), (1:ℚ)/2)]).Chain'
        (fun a b => b.score ≤ a.score) ∧
    (similaritySearch [((("a" : String), ([] : Meta)), (1:ℚ)/4), (("b", []), (1:ℚ)/2)]).length ≤ 3 :=
  have hs : ([((("a" : String), ([] : Meta)), (1:ℚ)/4), (("b", []), (1:ℚ)/2)].Chain'
      fun a b => a.2 ≤ b.2) := by
    simp [List.chain'_cons]
    norm_num
  ⟨hs,
    (C9_retrieval_monotonicity [((("a" : String), ([] : Meta)), (1:ℚ)/4), (("b", []), (1:ℚ)/2)]
      3 hs (by norm_num)).1,
    (C9_retrieval_monotonicity [((("a" : String), ([] : Meta)), (1:ℚ)/4), (("b", []), (1:ℚ)/2)]
      3 hs (by norm_num)).2.1⟩

/-- C6: after adding 5 chunks whose base metadata is
`(filename := "ml_basics.txt")`, every stored entry and every retrieved
passage carries that filename in its metadata (the claim's parenthetical
holds), but every formatted source reports filename "Unknown":
`_format_sources` reads `metadata.get("source", "Unknown")`
(rag_service.py:118) and `add_documents` never writes a "source" key. -/
theorem C6_source_filename_bug :
    let st : List Entry × AddResult := addDocuments ["c1", "c2", "c3", "c4", "c5"]
      [("filename", MVal.s "ml_basics.txt"), ("document_id", MVal.s "d1")]
      (fun i => "u" ++ toString i) "t" []
    let res := similaritySearch ((st.1.take 3).map fun e =>
      ((e.content, e.metadata), (1:ℚ)/10))
    (∀ e ∈ st.1, mget e.metadata "filename" = some (.s "ml_basics.txt")) ∧
    res.length = 3 ∧
    (∀ r ∈ res, mget r.metadata "filename" = some (.s "ml_basics.txt")) ∧
    (formatSources (fun i => "f" ++ toString i) res).map (fun s => s.filename)
      = [.s "Unknown", .s "Unknown", .s "Unknown"] ∧
    MVal.s "Unknown" ≠ MVal.s "ml_basics.txt" := by
  decide

/-- C8: for every non-empty text, chunk_size ≥ 1 and overlap < chunk_size,
every chunk a terminating run of `TextSplitter.split_text` returns has length
at most chunk_size (the bound holds even in the long-word edge case the claim
exempts, since the word-boundary fallback splits mid-word at the window end). -/
theorem C8_chunk_length_bound (sp : TextSplitter) (text : List Char) (fuel : Nat)
    (cs : List (List Char)) (h1 : 1 ≤ sp.chunk_size)
    (hov : sp.chunk_overlap < sp.chunk_size) (hne : text ≠ [])
    (hrun : splitText sp text fuel = some cs) :
    ∀ c ∈ cs, (c.length : Int) ≤ sp.chunk_size := by
  unfold splitText at hrun
  rw [isEmpty_false_of_ne_nil text hne] at hrun
  simp only [Bool.false_eq_true, if_false] at hrun
  exact splitLoop_length_le sp text h1 hov fuel 0 [] cs (by omega)
    (fun h => absurd h (by omega)) (by simp) hrun

/-- Witness for C8 at chunk_size 4, overlap 1, text "ab cd". -/
theorem C8_chunk_length_bound_witness :
    (1 : Int) ≤ 4 ∧ ∀ c ∈ [['a', 'b'], ['c', 'd']], ((List.length c : Int) ≤ 4) :=
  ⟨by norm_num,
    C8_chunk_length_bound ⟨4, 1⟩ "ab cd".data 10 [['a', 'b'], ['c', 'd']]
      (by norm_num) (by norm_num) (by decide) (by decide)⟩

/-- C10: every chunk any terminating run of `TextSplitter.split_text` returns
(for any parameters and any input) is non-empty and equal to its own strip:
empty-after-strip windows are skipped, and each emitted chunk is the result of
`.strip()`. -/
theorem C10_chunks_nonempty_stripped (sp : TextSplitter) (text : List Char)
    (fuel : Nat) (cs : List (List Char))
    (hrun : splitText sp text fuel = some cs) :
    ∀ c ∈ cs, c ≠ [] ∧ pyStrip c = c := by
  unfold splitText at hrun
  by_cases he : text.isEmpty
  · rw [if_pos he] at hrun
    obtain rfl : ([] : List (List Char)) = cs := Option.some.inj hrun
    simp
  · rw [if_neg he] at hrun
    exact splitLoop_stripped sp text fuel 0 [] cs (by simp) hrun

/-- Witness for C10 at chunk_size 6, overlap 2, text "  mid  x", evaluated at
the second returned chunk. -/
theorem C10_chunks_nonempty_stripped_witness :
    ['d', ' ', ' ', 'x'] ≠ [] ∧ pyStrip ['d', ' ', ' ', 'x'] = ['d', ' ', ' ', 'x'] :=
  C10_chunks_nonempty_stripped ⟨6, 2⟩ "  mid  x".data 10
    [['m', 'i', 'd'], ['d', ' ', ' ', 'x']] (by decide) ['d', ' ', ' ', 'x'] (by decide)

/-- C7 counterexample: `split_text` does not fail on empty or whitespace-only
input; it silently returns the empty list of chunks (the source has no
`EmptyInput` check: `if not text: return []`, and an all-whitespace window is
skipped after `.strip()`). -/
theorem C7_counterexample :
    splitText ⟨1000, 200⟩ [] 5 = some [] ∧
    splitText ⟨1000, 200⟩ [' '] 5 = some [] := by
  exact ⟨rfl, by decide⟩

/-- C7 amended: for empty input `split_text` returns `[]` (no error), and for
whitespace-only input every terminating run returns `[]`. -/
theorem C7_empty_whitespace_amended (sp : TextSplitter) (fuel : Nat) :
    splitText sp [] fuel = some [] ∧
    ∀ (text : List Char) (fuel2 : Nat) (cs : List (List Char)),
      (∀ c ∈ text, pyIsSpace c) → splitText sp text fuel2 = some cs → cs = [] := by
  constructor
  · rfl
  · intro text fuel2 cs hsp hrun
    unfold splitText at hrun
    by_cases he : text.isEmpty
    · rw [if_pos he] at hrun
      exact (Option.some.inj hrun).symm
    · rw [if_neg he] at hrun
      exact splitLoop_allspace sp text hsp fuel2 0 [] cs hrun

/-- Witness for the amended C7 at a one-space input. -/
theorem C7_empty_whitespace_amended_witness :
    (∀ c ∈ [' '], pyIsSpace c) ∧ ([] : List (List Char)) = [] :=
  ⟨by decide,
    (C7_empty_whitespace_amended ⟨1000, 200⟩ 3).2 [' '] 5 [] (by decide) (by decide)⟩

/-- C2 counterexample: constructing `TextSplitter(chunk_size=100,
chunk_overlap=100)` and splitting is not rejected with `InvalidParameters`:
the source performs no parameter validation, and on the five-character text
"hello" it successfully returns the single chunk. -/
theorem C2_counterexample :
    splitText ⟨100, 100⟩ "hello".data 5 = some ["hello".data] := by
  decide

/-- C2 amended: `TextSplitter` performs no `overlap < size` validation; for
every parameter pair (including overlap ≥ size) splitting a non-empty text no
longer than chunk_size succeeds and returns the single trimmed chunk (or no
chunk if the text strips to empty). -/
theorem C2_no_validation_amended (size overlap : Int) (text : List Char)
    (fuel : Nat) (hfuel : 2 ≤ fuel) (hne : text ≠ [])
    (hlen : (text.length : Int) ≤ size) :
    splitText ⟨size, overlap⟩ text fuel =
      some (if pyStrip text = [] then [] else [pyStrip text]) := by
  obtain ⟨f, rfl⟩ : ∃ f, fuel = f + 2 := ⟨fuel - 2, by omega⟩
  have htl := length_pos_of_ne_nil text hne
  unfold splitText
  rw [isEmpty_false_of_ne_nil text hne]
  simp only [Bool.false_eq_true, if_false]
  simp only [splitLoop]
  rw [if_pos htl]
  have hreach : ¬ (0 : Int) + size < (text.length : Int) := by omega
  rw [chunkEnd_of_reach ⟨size, overlap⟩ text 0 hreach]
  have h0size : (0 : Int) + size = size := by omega
  rw [h0size, pySlice_full text size hlen]
  rw [if_neg (show ¬ size < (text.length : Int) by omega)]
  rw [if_neg (show ¬ (text.length : Int) < (text.length : Int) by omega)]
  by_cases hs : pyStrip text = []
  · rw [if_pos (by rw [hs]; rfl), if_pos hs]
  · rw [if_neg (by simpa [List.isEmpty_iff] using hs), if_neg hs, List.nil_append]

/-- Witness for the amended C2 at chunk_size = chunk_overlap = 100,
text "hello". -/
theorem C2_no_validation_amended_witness :
    (2 ≤ 2 ∧ "hello".data ≠ [] ∧ (("hello".data.length : Int) ≤ 100)) ∧
    splitText ⟨100, 100⟩ "hello".data 2 =
      some (if pyStrip "hello".data = [] then [] else [pyStrip "hello".data]) :=
  ⟨⟨le_rfl, by decide, by norm_num⟩,
    C2_no_validation_amended 100 100 "hello".data 2 le_rfl (by decide) (by norm_num)⟩
